import Mathlib

/-!
# Verification of `src/code/assign_teams.py`

A shallow embedding of the programme classifier (`programme_group`) and the
team-assignment engine (`assign_teams`) of the repository, together with
theorems settling the specification claims about them.

Modelling conventions:
* A Python value that may be a string or missing/null is `Option String`.
* The pandas dataframe row order after the seeded shuffle is modelled by a
  shuffle function `Nat → Nat → List Nat` mapping `(seed, n)` to a list of
  row positions; the pandas guarantee that `df.sample(frac=1.0,
  random_state=seed)` emits a permutation of the rows, depending only on
  `(seed, n)`, is taken as a hypothesis where a theorem needs it.
* Uncaught Python exceptions and non-termination are explicit outcomes of
  the `PyOutcome` type.  The source has no exception handling, so an
  exception simply propagates out of `assign_teams`.
-/

/-- Outcome of running a Python function: a normal return value, an uncaught
`ZeroDivisionError`, or an infinite loop. -/
inductive PyOutcome (α : Type) where
  | ok : α → PyOutcome α
  | zeroDivisionError : PyOutcome α
  | nonTermination : PyOutcome α
deriving DecidableEq, Repr

/-- One row of the returned dataframe: the raw programme label, the
`programme_group` column, and the stamped `team_id` / `condition` columns. -/
structure Row where
  programme : Option String
  programme_group : String
  team_id : String
  condition : String
deriving DecidableEq, Repr

/-- The `comp` set of programme labels (source lines 28–34). -/
def compSet : List String :=
  ["B Tech Computer", "MBA Tech Computer", "B Tech IT", "MBA Tech IT",
   "B Tech Data Science"]

/-- The `aia` set of programme labels (source lines 35–39). -/
def aiaSet : List String :=
  ["B Tech AI", "MBA Tech AI", "B Tech Cyber Security"]

/-- The `other` set of programme labels (source lines 40–43). -/
def otherSet : List String :=
  ["B Tech EXTC", "B Tech Mechanical"]

/-- Drop surrounding whitespace characters from a character list. -/
def stripChars (l : List Char) : List Char :=
  ((l.dropWhile Char.isWhitespace).reverse.dropWhile Char.isWhitespace).reverse

/-- Models Python's `str.strip()` (used at source line 27): remove leading and
trailing whitespace. -/
def pyStrip (s : String) : String := String.mk (stripChars s.data)

/-- Embedding of `programme_group` (source lines 24–50).  A non-string input
(missing/NaN) is `none` and yields `"Unknown"`; otherwise the stripped label
is looked up in the three static sets, defaulting to `"OtherGroup"`. -/
def programme_group : Option String → String
  | none => "Unknown"
  | some prog =>
    let p := pyStrip prog
    if p ∈ compSet then "CompGroup"
    else if p ∈ aiaSet then "AIAGroup"
    else if p ∈ otherSet then "OtherGroup"
    else "OtherGroup"

/-- Embedding of `can_form_cross` (source lines 86–88): the candidate window
spans more than one distinct `programme_group`.  `catOf` gives the group of
each row position; the distinct-group count is the length of the dedup of the
mapped list. -/
def can_form_cross (catOf : Nat → String) (w : List Nat) : Bool :=
  1 < ((w.map catOf).dedup).length

/-- The consecutive non-overlapping full windows of size `ts` of a list.
Models both the Phase-2 scan (`while … i + team_size <= len(rng)` with
`candidate = rng[i : i + team_size]`, source lines 94–104) and the Phase-3
chunking (`while len(idxs) >= team_size`, source lines 112–114): window `k`
is `l[k*ts : k*ts+ts]`, and there are `l.length / ts` full windows. -/
def fullWindows (ts : Nat) (l : List Nat) : List (List Nat) :=
  (List.range (l.length / ts)).map (fun k => (l.drop (k * ts)).take ts)

/-- Embedding of the Phase-2 greedy loop (source lines 90–104), consuming the
window list in order.  State: remaining windows, `formed_cross`,
`used_indices` (a set, modelled as a list queried only by membership), and the
accumulated `teams` list. -/
def phase2Go (catOf : Nat → String) (target : Int) :
    List (List Nat) → Nat → List Nat → List (List Nat × String) →
      List (List Nat × String) × List Nat
  | [], _, used, teams => (teams, used)
  | w :: ws, formed, used, teams =>
    if (formed : Int) < target then
      if w.any (fun idx => used.contains idx) then
        phase2Go catOf target ws formed used teams
      else if can_form_cross catOf w then
        phase2Go catOf target ws (formed + 1) (used ++ w) (teams ++ [(w, "cross")])
      else
        phase2Go catOf target ws formed used teams
    else (teams, used)

/-- Lexicographic code-point comparison of character lists (the order Python
uses to sort strings). -/
def charsLe : List Char → List Char → Bool
  | [], _ => true
  | _ :: _, [] => false
  | a :: as, b :: bs =>
    if a.toNat < b.toNat then true
    else if b.toNat < a.toNat then false
    else charsLe as bs

/-- String comparison by code points. -/
def strLe (s t : String) : Bool := charsLe s.data t.data

/-- Insert a string into a sorted list of strings (helper for the sorted
group iteration of pandas `groupby`). -/
def insertSorted (s : String) : List String → List String
  | [] => [s]
  | t :: ts => if strLe s t then s :: t :: ts else t :: insertSorted s ts

/-- Sort a list of strings ascending (insertion sort).  Models the pandas
`groupby` convention of iterating group keys in sorted order. -/
def sortStrings (l : List String) : List String := l.foldr insertSorted []

/-- Embedding of Phase 3 (source lines 106–115): group the remaining row
positions by `programme_group` (group keys iterated in sorted order, as
pandas `groupby` does), and chunk each group into full teams of size `ts`,
tagged `"same"`.  Remainders smaller than `ts` are left out. -/
def phase3Teams (catOf : Nat → String) (ts : Nat) (remaining : List Nat) :
    List (List Nat × String) :=
  (sortStrings ((remaining.map catOf).dedup)).flatMap
    (fun g =>
      (fullWindows ts (remaining.filter (fun i => catOf i == g))).map
        (fun w => (w, "same")))

/-- Append `idx` to the member list of the team at position `k`
(models the in-place `teams[k][0].append(idx)` of source line 125). -/
def appendAt : List (List Nat × String) → Nat → Nat → List (List Nat × String)
  | [], _, _ => []
  | t :: ts, 0, idx => (t.1 ++ [idx], t.2) :: ts
  | t :: ts, k + 1, idx => t :: appendAt ts k idx

/-- Embedding of the Phase-4 round-robin loop (source lines 121–126): each
leftover in turn is appended to team `t_idx % len(teams)`.  The caller
guards the `len(teams) = 0` case (which raises `ZeroDivisionError` in
Python) before entering. -/
def redistLoop : List (List Nat × String) → Nat → List Nat → List (List Nat × String)
  | teams, _, [] => teams
  | teams, c, idx :: rest => redistLoop (appendAt teams (c % teams.length) idx) (c + 1) rest

/-- Characters of the decimal digits of `n`, most significant first, with an
explicit fuel argument (`fuel > n` suffices). -/
def natDigitsF : Nat → Nat → List Char
  | 0, _ => []
  | fuel + 1, n =>
    if n < 10 then [Nat.digitChar n]
    else natDigitsF fuel (n / 10) ++ [Nat.digitChar (n % 10)]

/-- Characters of the decimal digits of `n`, most significant first. -/
def natDigits (n : Nat) : List Char := natDigitsF (n + 1) n

/-- Models Python's `f"{n:02d}"`: the decimal digits of `n`, left-padded with
`'0'` to a minimum width of two characters. -/
def pad02 (n : Nat) : List Char :=
  if n < 10 then '0' :: natDigits n else natDigits n

/-- The team label `f"T{n:02d}"` of source line 131. -/
def teamLabel (n : Nat) : String := String.mk ('T' :: pad02 n)

/-- Value of a decimal digit character list read from `acc` (fold used to
invert `natDigits`). -/
def decodeFrom (acc : Nat) (l : List Char) : Nat :=
  l.foldl (fun a c => a * 10 + (c.toNat - 48)) acc

/-- Stamp the rows whose position (starting at `i`) is a member of `idxs`
with the given `team_id` label and `condition` (models
`df.loc[indices, "team_id"] = label; df.loc[indices, "condition"] = cond`,
source lines 132–133). -/
def stampRowsOne (idxs : List Nat) (label cond : String) : Nat → List Row → List Row
  | _, [] => []
  | i, r :: rs =>
    (if idxs.contains i then { r with team_id := label, condition := cond } else r)
      :: stampRowsOne idxs label cond (i + 1) rs

/-- Embedding of the Phase-5 labeling loop (source lines 128–134): stamp each
team's members in formation order, with `team_counter` starting at `c`. -/
def stampGo : Nat → List (List Nat × String) → List Row → List Row
  | _, [], rows => rows
  | c, (idxs, cond) :: rest, rows =>
    stampGo (c + 1) rest (stampRowsOne idxs (teamLabel c) cond 0 rows)

/-- The inputs of one `assign_teams` call: the shuffle primitive (see module
docstring), the classified roster (raw programme label per student, in input
order), and the three scalar parameters of the Python signature. -/
structure Inputs where
  shuffle : Nat → Nat → List Nat
  roster : List (Option String)
  team_size : Nat
  target_cross_teams : Option Int
  seed : Nat

/-- The roster in post-shuffle row order (source line 69):
`df.sample(frac=1.0, random_state=seed)` followed by `reset_index(drop=True)`. -/
def shuffledOf (inp : Inputs) : List (Option String) :=
  (inp.shuffle inp.seed inp.roster.length).map (fun k => inp.roster.getD k none)

/-- The `programme_group` column in post-shuffle row order (source line 66). -/
def catsOf (inp : Inputs) : List String := (shuffledOf inp).map programme_group

/-- `programme_group` of the row at position `i` of the shuffled dataframe. -/
def pgAt (inp : Inputs) (i : Nat) : String := (catsOf inp).getD i "Unknown"

/-- The effective `target_cross_teams` (source lines 77–80): the given value,
or `max(1, (n // team_size) // 2)` when omitted. -/
def targetOf (inp : Inputs) : Int :=
  match inp.target_cross_teams with
  | some t => t
  | none => (max 1 (inp.roster.length / inp.team_size / 2) : Nat)

/-- The second seeded permutation (source line 84): the order in which
Phase 2 scans row positions. -/
def rngOf (inp : Inputs) : List Nat := inp.shuffle (inp.seed + 1) inp.roster.length

/-- The result of the Phase-2 loop: the cross teams and the used positions. -/
def phase2Of (inp : Inputs) : List (List Nat × String) × List Nat :=
  phase2Go (pgAt inp) (targetOf inp) (fullWindows inp.team_size (rngOf inp)) 0 [] []

/-- The cross teams formed in Phase 2. -/
def teams2Of (inp : Inputs) : List (List Nat × String) := (phase2Of inp).1

/-- The `used_indices` set after Phase 2. -/
def usedOf (inp : Inputs) : List Nat := (phase2Of inp).2

/-- The row positions not committed in Phase 2, in row order
(source line 107). -/
def remainingOf (inp : Inputs) : List Nat :=
  (List.range inp.roster.length).filter (fun i => !(usedOf inp).contains i)

/-- The same-group teams formed in Phase 3. -/
def teams3Of (inp : Inputs) : List (List Nat × String) :=
  phase3Teams (pgAt inp) inp.team_size (remainingOf inp)

/-- All teams after Phases 2–3 (cross teams first), before redistribution. -/
def teams23Of (inp : Inputs) : List (List Nat × String) :=
  teams2Of inp ++ teams3Of inp

/-- The leftover row positions after Phases 2–3, in row order
(source line 120). -/
def leftoversOf (inp : Inputs) : List Nat :=
  (List.range inp.roster.length).filter
    (fun i => !((teams23Of inp).flatMap Prod.fst).contains i)

/-- The team list produced by Phases 2–4, or the abnormal outcome of the run.
For `team_size = 0`, the Python code raises `ZeroDivisionError` computing the
default target (`n // 0`), or loops forever (in Phase 2 when the target is
positive, otherwise in Phase 3 when the roster is non-empty).  For
`team_size > 0`, the only abnormal outcome is the `ZeroDivisionError` of
`t_idx % len(teams)` when leftovers exist but no team was formed
(source line 125). -/
def engineTeams (inp : Inputs) : PyOutcome (List (List Nat × String)) :=
  if inp.team_size = 0 then
    if inp.target_cross_teams = none then .zeroDivisionError
    else if 0 < targetOf inp then .nonTermination
    else if inp.roster.length = 0 then .ok [] else .nonTermination
  else
    if leftoversOf inp = [] ∨ teams23Of inp ≠ [] then
      .ok (redistLoop (teams23Of inp) 0 (leftoversOf inp))
    else .zeroDivisionError

/-- The dataframe rows before labeling: shuffled roster with classified
group and empty `team_id` / `condition` columns (source lines 66–72). -/
def rows0Of (inp : Inputs) : List Row :=
  (shuffledOf inp).map
    (fun p => { programme := p, programme_group := programme_group p,
                team_id := "", condition := "" })

/-- Embedding of `assign_teams` (source lines 53–136): run Phases 1–4 and, on
success, stamp the team labels and conditions onto the rows. -/
def assign_teams (inp : Inputs) : PyOutcome (List Row) :=
  match engineTeams inp with
  | .ok fteams => .ok (stampGo 1 fteams (rows0Of inp))
  | .zeroDivisionError => .zeroDivisionError
  | .nonTermination => .nonTermination

/-- The identity shuffle, a concrete instance of the shuffle primitive used
to evaluate the engine on concrete inputs. -/
def idShuffle : Nat → Nat → List Nat := fun _ n => List.range n

/-! ## Classifier lemmas -/

lemma mem_aia_not_comp {p : String} (h : p ∈ aiaSet) : p ∉ compSet := by
  simp only [aiaSet, List.mem_cons, List.not_mem_nil, or_false] at h
  rcases h with rfl | rfl | rfl <;> decide

lemma pg_some_ne_unknown (s : String) : programme_group (some s) ≠ "Unknown" := by
  simp only [programme_group]
  split <;> try decide
  split <;> try decide
  split <;> decide

lemma pg_comp {s : String} (h : pyStrip s ∈ compSet) :
    programme_group (some s) = "CompGroup" := by
  simp only [programme_group, if_pos h]

lemma pg_aia {s : String} (h : pyStrip s ∈ aiaSet) :
    programme_group (some s) = "AIAGroup" := by
  simp only [programme_group, if_neg (mem_aia_not_comp h), if_pos h]

lemma pg_not_comp_aia {s : String} (h1 : pyStrip s ∉ compSet) (h2 : pyStrip s ∉ aiaSet) :
    programme_group (some s) = "OtherGroup" := by
  simp only [programme_group, if_neg h1, if_neg h2]
  split <;> rfl

lemma pg_comp_iff (s : String) :
    programme_group (some s) = "CompGroup" ↔ pyStrip s ∈ compSet := by
  constructor
  · intro h
    by_contra hn
    by_cases ha : pyStrip s ∈ aiaSet
    · rw [pg_aia ha] at h
      exact absurd h (by decide)
    · rw [pg_not_comp_aia hn ha] at h
      exact absurd h (by decide)
  · exact pg_comp

lemma pg_aia_iff (s : String) :
    programme_group (some s) = "AIAGroup" ↔ pyStrip s ∈ aiaSet := by
  constructor
  · intro h
    by_contra hn
    by_cases hc : pyStrip s ∈ compSet
    · rw [pg_comp hc] at h
      exact absurd h (by decide)
    · rw [pg_not_comp_aia hc hn] at h
      exact absurd h (by decide)
  · exact pg_aia

/-- C9 — classifier contract: `programme_group` strips the label, then
returns `"CompGroup"` exactly for the first static set, `"AIAGroup"` exactly
for the second, `"OtherGroup"` for the third set and for every other string
(unrecognised-but-present labels fall back to `"OtherGroup"`), and
`"Unknown"` exactly on a non-string (missing/null) input. -/
theorem claim_c9_classifier_contract :
    programme_group none = "Unknown" ∧
    (∀ s : String, programme_group (some s) = "CompGroup" ↔
      pyStrip s ∈ compSet) ∧
    (∀ s : String, programme_group (some s) = "AIAGroup" ↔
      pyStrip s ∈ aiaSet) ∧
    (∀ s : String, pyStrip s ∈ otherSet → programme_group (some s) = "OtherGroup") ∧
    (∀ s : String, pyStrip s ∉ compSet → pyStrip s ∉ aiaSet →
      programme_group (some s) = "OtherGroup") ∧
    (∀ x : Option String, programme_group x = "Unknown" ↔ x = none) := by
  refine ⟨rfl, pg_comp_iff, pg_aia_iff, ?_,
    fun s h1 h2 => pg_not_comp_aia h1 h2, ?_⟩
  · intro s h
    have h1 : pyStrip s ∉ compSet := by
      simp only [otherSet, List.mem_cons, List.not_mem_nil, or_false] at h
      rcases h with h | h <;> rw [h] <;> decide
    have h2 : pyStrip s ∉ aiaSet := by
      simp only [otherSet, List.mem_cons, List.not_mem_nil, or_false] at h
      rcases h with h | h <;> rw [h] <;> decide
    exact pg_not_comp_aia h1 h2
  · intro x
    cases x with
    | none => simp [programme_group]
    | some s => simp [pg_some_ne_unknown s]

/-- Witness for C9 at concrete labels. -/
theorem claim_c9_classifier_contract_witness :
    (programme_group (some " B Tech IT ") = "CompGroup" ↔
      pyStrip " B Tech IT " ∈ compSet) ∧
    (programme_group (some "B Tech AI") = "AIAGroup" ↔
      pyStrip "B Tech AI" ∈ aiaSet) ∧
    programme_group (some "B Tech EXTC") = "OtherGroup" ∧
    programme_group (some "Totally Unheard Of") = "OtherGroup" ∧
    (programme_group (some "B Tech IT") = "Unknown" ↔
      (some "B Tech IT" : Option String) = none) :=
  ⟨claim_c9_classifier_contract.2.1 " B Tech IT ",
   claim_c9_classifier_contract.2.2.1 "B Tech AI",
   claim_c9_classifier_contract.2.2.2.1 "B Tech EXTC" (by decide),
   claim_c9_classifier_contract.2.2.2.2.1 "Totally Unheard Of" (by decide)
     (by decide),
   claim_c9_classifier_contract.2.2.2.2.2 (some "B Tech IT")⟩

lemma pyStrip_of_all_whitespace {s : String} (h : ∀ c ∈ s.data, c.isWhitespace) :
    pyStrip s = "" := by
  have h1 : s.data.dropWhile Char.isWhitespace = [] := List.dropWhile_eq_nil_iff.mpr h
  simp [pyStrip, stripChars, h1]

/-- C10 — implicit edge case: a string that is empty, or all whitespace (so
empty after stripping), classifies as `"OtherGroup"`, not `"Unknown"`;
`"Unknown"` is produced exactly for a non-string (missing/null) input. -/
theorem claim_c10_whitespace_label_is_other :
    (∀ s : String, (∀ c ∈ s.data, c.isWhitespace) →
      programme_group (some s) = "OtherGroup") ∧
    (∀ x : Option String, programme_group x = "Unknown" ↔ x = none) := by
  constructor
  · intro s h
    have hs : pyStrip s = "" := pyStrip_of_all_whitespace h
    exact pg_not_comp_aia (by rw [hs]; decide) (by rw [hs]; decide)
  · intro x
    cases x with
    | none => simp [programme_group]
    | some s => simp [pg_some_ne_unknown s]

/-- Witness for C10 at the empty string and a whitespace-only string. -/
theorem claim_c10_whitespace_label_is_other_witness :
    programme_group (some "") = "OtherGroup" ∧
    programme_group (some "   ") = "OtherGroup" ∧
    (programme_group none = "Unknown" ↔ (none : Option String) = none) :=
  ⟨claim_c10_whitespace_label_is_other.1 "" (by decide),
   claim_c10_whitespace_label_is_other.1 "   " (by decide),
   claim_c10_whitespace_label_is_other.2 none⟩

/-! ## List helper lemmas -/

lemma natContains_iff {l : List Nat} {a : Nat} : l.contains a = true ↔ a ∈ l :=
  List.contains_iff_exists_mem_beq.trans (by simp)

lemma mem_fullWindows {ts : Nat} {l w : List Nat} (hw : w ∈ fullWindows ts l) :
    ∃ k, k < l.length / ts ∧ w = (l.drop (k * ts)).take ts := by
  simp only [fullWindows, List.mem_map, List.mem_range] at hw
  obtain ⟨k, hk, rfl⟩ := hw
  exact ⟨k, hk, rfl⟩

lemma fullWindows_length_eq {ts : Nat} (hts : 0 < ts) {l w : List Nat}
    (hw : w ∈ fullWindows ts l) : w.length = ts := by
  obtain ⟨k, hk, rfl⟩ := mem_fullWindows hw
  have h0 : k + 1 ≤ l.length / ts := hk
  have h1 : (k + 1) * ts ≤ l.length := (Nat.le_div_iff_mul_le hts).mp h0
  have h2 : (k + 1) * ts = k * ts + ts := by ring
  simp only [List.length_take, List.length_drop]
  omega

lemma fullWindows_sublist {ts : Nat} {l w : List Nat} (hw : w ∈ fullWindows ts l) :
    w.Sublist l := by
  obtain ⟨k, _, rfl⟩ := mem_fullWindows hw
  exact (List.take_sublist ts _).trans (List.drop_sublist (k * ts) l)

lemma fullWindows_nodup {ts : Nat} {l w : List Nat} (hl : l.Nodup)
    (hw : w ∈ fullWindows ts l) : w.Nodup :=
  hl.sublist (fullWindows_sublist hw)

lemma flatMap_range_take (l : List Nat) (ts : Nat) :
    ∀ m, ((List.range m).map (fun k => (l.drop (k * ts)).take ts)).flatMap
      (fun w => w) = l.take (m * ts)
  | 0 => by simp
  | m + 1 => by
    rw [List.range_succ, List.map_append, List.flatMap_append,
      flatMap_range_take l ts m]
    simp only [List.map_cons, List.map_nil, List.flatMap_cons, List.flatMap_nil,
      List.append_nil]
    rw [← List.take_add l (m * ts) ts]
    congr 1
    ring

lemma flatMap_fullWindows (ts : Nat) (l : List Nat) :
    (fullWindows ts l).flatMap (fun w => w) = l.take ((l.length / ts) * ts) :=
  flatMap_range_take l ts (l.length / ts)

lemma fullWindows_ne_nil {ts : Nat} {l : List Nat} (hts : 0 < ts)
    (hl : ts ≤ l.length) : fullWindows ts l ≠ [] := by
  have h1 : 0 < l.length / ts := Nat.one_le_div_iff hts |>.mpr hl
  simp only [fullWindows, ne_eq, List.map_eq_nil_iff, List.range_eq_nil]
  omega

lemma nodup_flatMap_of_disjoint {α β : Type} (gs : List α) (f : α → List β)
    (hg : gs.Nodup) (hn : ∀ g ∈ gs, (f g).Nodup)
    (hd : ∀ g ∈ gs, ∀ g' ∈ gs, g ≠ g' → ∀ b ∈ f g, b ∉ f g') :
    (gs.flatMap f).Nodup := by
  induction gs with
  | nil => simp
  | cons a gs ih =>
    rw [List.flatMap_cons]
    refine (hn a (by simp)).append
      (ih hg.of_cons (fun g hgmem => hn g (by simp [hgmem]))
        (fun g h1 g' h2 h3 => hd g (by simp [h1]) g' (by simp [h2]) h3)) ?_
    intro b hb hb'
    rw [List.mem_flatMap] at hb'
    obtain ⟨g', hg', hbg'⟩ := hb'
    have hne : a ≠ g' := by
      rintro rfl
      exact (List.nodup_cons.mp hg).1 hg'
    exact hd a (by simp) g' (by simp [hg']) hne b hb hbg'

lemma insertSorted_perm (s : String) (l : List String) :
    (insertSorted s l).Perm (s :: l) := by
  induction l with
  | nil => exact List.Perm.refl _
  | cons t ts ih =>
    rw [insertSorted]
    split
    · exact List.Perm.refl _
    · exact (ih.cons t).trans (List.Perm.swap s t ts)

lemma sortStrings_perm (l : List String) : (sortStrings l).Perm l := by
  induction l with
  | nil => exact List.Perm.refl _
  | cons a l ih =>
    exact (insertSorted_perm a (sortStrings l)).trans (ih.cons a)

lemma mem_flatMap_fst_iff {ts : List (List Nat × String)} {i : Nat} :
    i ∈ ts.flatMap Prod.fst ↔ ∃ j, j < ts.length ∧ i ∈ (ts.getD j ([], "")).1 := by
  induction ts with
  | nil => simp
  | cons t rest ih =>
    simp only [List.flatMap_cons, List.mem_append, ih, List.length_cons]
    constructor
    · rintro (h | ⟨j, hj, hmem⟩)
      · exact ⟨0, by omega, h⟩
      · exact ⟨j + 1, by omega, by simpa using hmem⟩
    · rintro ⟨j, hj, hmem⟩
      cases j with
      | zero => exact Or.inl (by simpa using hmem)
      | succ j => exact Or.inr ⟨j, by omega, by simpa using hmem⟩

/-! ## Phase-2 loop invariants -/

lemma phase2Go_spec (catOf : Nat → String) (target : Int) :
    ∀ (ws : List (List Nat)), (∀ w ∈ ws, w.Nodup) →
    ∀ formed used teams,
      ∃ new,
        phase2Go catOf target ws formed used teams
          = (teams ++ new, used ++ new.flatMap Prod.fst) ∧
        (∀ t ∈ new, t.2 = "cross" ∧ can_form_cross catOf t.1 = true ∧ t.1 ∈ ws) ∧
        (new.flatMap Prod.fst).Nodup ∧
        (∀ i ∈ new.flatMap Prod.fst, i ∉ used ∧ ∃ w ∈ ws, i ∈ w) := by
  intro ws
  induction ws with
  | nil =>
    intro _ formed used teams
    exact ⟨[], by simp [phase2Go], by simp, by simp, by simp⟩
  | cons w ws ih =>
    intro hw formed used teams
    have hwn : ∀ w' ∈ ws, w'.Nodup := fun w' h => hw w' (List.mem_cons_of_mem w h)
    rw [phase2Go]
    by_cases h1 : (formed : Int) < target
    · rw [if_pos h1]
      by_cases h2 : w.any (fun idx => used.contains idx)
      · rw [if_pos h2]
        obtain ⟨new, heq, hprop, hnd, hni⟩ := ih hwn formed used teams
        exact ⟨new, heq,
          fun t ht => ⟨(hprop t ht).1, (hprop t ht).2.1,
            List.mem_cons_of_mem w (hprop t ht).2.2⟩, hnd,
          fun i hi => ⟨(hni i hi).1,
            (hni i hi).2.elim fun w' h => ⟨w', List.mem_cons_of_mem w h.1, h.2⟩⟩⟩
      · rw [if_neg h2]
        have h2' : ∀ idx ∈ w, idx ∉ used := by
          intro idx hidx hmem
          exact h2 (List.any_eq_true.mpr ⟨idx, hidx, natContains_iff.mpr hmem⟩)
        by_cases h3 : can_form_cross catOf w
        · rw [if_pos h3]
          obtain ⟨new, heq, hprop, hnd, hni⟩ :=
            ih hwn (formed + 1) (used ++ w) (teams ++ [(w, "cross")])
          refine ⟨(w, "cross") :: new, ?_, ?_, ?_, ?_⟩
          · rw [heq]
            simp [List.append_assoc]
          · intro t ht
            rcases List.mem_cons.mp ht with rfl | ht
            · exact ⟨rfl, h3, List.mem_cons_self w ws⟩
            · exact ⟨(hprop t ht).1, (hprop t ht).2.1,
                List.mem_cons_of_mem w (hprop t ht).2.2⟩
          · rw [List.flatMap_cons]
            refine (hw w (List.mem_cons_self w ws)).append hnd ?_
            intro a ha ha'
            exact (hni a ha').1 (List.mem_append_right used ha)
          · rw [List.flatMap_cons]
            intro i hi
            rcases List.mem_append.mp hi with hi | hi
            · exact ⟨h2' i hi, w, List.mem_cons_self w ws, hi⟩
            · refine ⟨fun hmem => (hni i hi).1 (List.mem_append_left w hmem),
                (hni i hi).2.elim fun w' h => ⟨w', List.mem_cons_of_mem w h.1, h.2⟩⟩
        · rw [if_neg h3]
          obtain ⟨new, heq, hprop, hnd, hni⟩ := ih hwn formed used teams
          exact ⟨new, heq,
            fun t ht => ⟨(hprop t ht).1, (hprop t ht).2.1,
              List.mem_cons_of_mem w (hprop t ht).2.2⟩, hnd,
            fun i hi => ⟨(hni i hi).1,
              (hni i hi).2.elim fun w' h => ⟨w', List.mem_cons_of_mem w h.1, h.2⟩⟩⟩
    · rw [if_neg h1]
      exact ⟨[], by simp, by simp, by simp, by simp⟩

/-- The Phase-2 result, specialised to the engine's starting state.  Needs the
second shuffle to be duplicate-free. -/
lemma teams2_spec (inp : Inputs) (hrng : (rngOf inp).Nodup) :
    usedOf inp = (teams2Of inp).flatMap Prod.fst ∧
    (∀ t ∈ teams2Of inp, t.2 = "cross" ∧ can_form_cross (pgAt inp) t.1 = true ∧
      t.1 ∈ fullWindows inp.team_size (rngOf inp)) ∧
    ((teams2Of inp).flatMap Prod.fst).Nodup ∧
    (∀ i ∈ (teams2Of inp).flatMap Prod.fst,
      ∃ w ∈ fullWindows inp.team_size (rngOf inp), i ∈ w) := by
  have hw : ∀ w ∈ fullWindows inp.team_size (rngOf inp), w.Nodup :=
    fun w h => fullWindows_nodup hrng h
  obtain ⟨new, heq, hprop, hnd, hni⟩ :=
    phase2Go_spec (pgAt inp) (targetOf inp) _ hw 0 [] []
  have h2 : teams2Of inp = new := by
    simp only [teams2Of, phase2Of, heq, List.nil_append]
  have h3 : usedOf inp = new.flatMap Prod.fst := by
    simp only [usedOf, phase2Of, heq, List.nil_append]
  rw [h2, h3]
  exact ⟨rfl, hprop, hnd, fun i hi => (hni i hi).2⟩

/-! ## Phase-3 and coverage lemmas -/

lemma natContains_false_iff {l : List Nat} {a : Nat} :
    l.contains a = false ↔ a ∉ l := by
  rw [← Bool.not_eq_true, not_iff_not]
  exact natContains_iff

lemma mem_remaining_iff (inp : Inputs) {i : Nat} :
    i ∈ remainingOf inp ↔ i < inp.roster.length ∧ i ∉ usedOf inp := by
  simp only [remainingOf, List.mem_filter, List.mem_range, Bool.not_eq_true',
    natContains_false_iff]

lemma remaining_nodup (inp : Inputs) : (remainingOf inp).Nodup :=
  (List.nodup_range inp.roster.length).filter _

lemma mem_teams3 (inp : Inputs) {t : List Nat × String} (ht : t ∈ teams3Of inp) :
    t.2 = "same" ∧ ∃ g, t.1 ∈ fullWindows inp.team_size
      ((remainingOf inp).filter (fun i => pgAt inp i == g)) := by
  simp only [teams3Of, phase3Teams, List.mem_flatMap, List.mem_map] at ht
  obtain ⟨g, _, w, hw, rfl⟩ := ht
  exact ⟨rfl, g, hw⟩

lemma teams3_flat_eq (inp : Inputs) :
    (teams3Of inp).flatMap Prod.fst
      = (sortStrings (((remainingOf inp).map (pgAt inp)).dedup)).flatMap
          (fun g =>
            (fullWindows inp.team_size
              ((remainingOf inp).filter (fun i => pgAt inp i == g))).flatMap
              (fun w => w)) := by
  simp only [teams3Of, phase3Teams, List.flatMap_assoc]
  congr 1
  funext g
  rw [List.flatMap_map]

lemma teams3_flat_mem_filter (inp : Inputs) {g : String} {i : Nat}
    (hi : i ∈ (fullWindows inp.team_size
      ((remainingOf inp).filter (fun i => pgAt inp i == g))).flatMap (fun w => w)) :
    i ∈ (remainingOf inp).filter (fun i => pgAt inp i == g) := by
  rw [flatMap_fullWindows] at hi
  exact (List.take_sublist _ _).subset hi

lemma teams3_flat_spec (inp : Inputs) :
    ((teams3Of inp).flatMap Prod.fst).Nodup ∧
    (∀ i ∈ (teams3Of inp).flatMap Prod.fst, i ∈ remainingOf inp) := by
  rw [teams3_flat_eq]
  have hFg : ∀ (g : String) (i : Nat),
      i ∈ (fullWindows inp.team_size
        ((remainingOf inp).filter (fun i => pgAt inp i == g))).flatMap (fun w => w) →
      pgAt inp i = g := by
    intro g i hi
    have hmem := teams3_flat_mem_filter inp hi
    have hp := List.of_mem_filter hmem
    simp only [beq_iff_eq] at hp
    exact hp
  constructor
  · refine nodup_flatMap_of_disjoint _ _
      ((sortStrings_perm _).nodup_iff.mpr (List.nodup_dedup _)) ?_ ?_
    · intro g _
      rw [flatMap_fullWindows]
      exact ((remaining_nodup inp).filter _).sublist (List.take_sublist _ _)
    · intro g _ g' _ hne b hb hb'
      exact hne ((hFg g b hb).symm.trans (hFg g' b hb'))
  · intro i hi
    rw [List.mem_flatMap] at hi
    obtain ⟨g, _, hig⟩ := hi
    exact List.mem_of_mem_filter (teams3_flat_mem_filter inp hig)

lemma members23_spec (inp : Inputs)
    (hperm : (rngOf inp).Perm (List.range inp.roster.length)) :
    ((teams23Of inp).flatMap Prod.fst).Nodup ∧
    (∀ i ∈ (teams23Of inp).flatMap Prod.fst, i < inp.roster.length) := by
  have hrng : (rngOf inp).Nodup :=
    hperm.nodup_iff.mpr (List.nodup_range inp.roster.length)
  obtain ⟨hused, _, hnd2, hwin2⟩ := teams2_spec inp hrng
  obtain ⟨hnd3, hsub3⟩ := teams3_flat_spec inp
  have hflat : (teams23Of inp).flatMap Prod.fst
      = (teams2Of inp).flatMap Prod.fst ++ (teams3Of inp).flatMap Prod.fst :=
    List.flatMap_append ..
  have h2lt : ∀ i ∈ (teams2Of inp).flatMap Prod.fst, i < inp.roster.length := by
    intro i hi
    obtain ⟨w, hw, hiw⟩ := hwin2 i hi
    have : i ∈ rngOf inp := (fullWindows_sublist hw).subset hiw
    simpa using hperm.subset this
  have h3r : ∀ i ∈ (teams3Of inp).flatMap Prod.fst,
      i < inp.roster.length ∧ i ∉ usedOf inp :=
    fun i hi => (mem_remaining_iff inp).mp (hsub3 i hi)
  rw [hflat]
  constructor
  · refine hnd2.append hnd3 ?_
    intro a ha ha'
    exact (h3r a ha').2 (hused ▸ ha)
  · intro i hi
    rcases List.mem_append.mp hi with hi | hi
    · exact h2lt i hi
    · exact (h3r i hi).1

/-- The members of the Phase-2/3 teams together with the leftovers are a
permutation of all row positions. -/
lemma cover_perm (inp : Inputs)
    (hperm : (rngOf inp).Perm (List.range inp.roster.length)) :
    ((teams23Of inp).flatMap Prod.fst ++ leftoversOf inp).Perm
      (List.range inp.roster.length) := by
  obtain ⟨hnd, hlt⟩ := members23_spec inp hperm
  have h1 : ((List.range inp.roster.length).filter
      (fun i => ((teams23Of inp).flatMap Prod.fst).contains i)).Perm
      ((teams23Of inp).flatMap Prod.fst) := by
    refine (List.perm_ext_iff_of_nodup ((List.nodup_range _).filter _) hnd).mpr ?_
    intro a
    simp only [List.mem_filter, List.mem_range, natContains_iff]
    exact ⟨fun h => h.2, fun h => ⟨hlt a h, h⟩⟩
  have h2 : ((teams23Of inp).flatMap Prod.fst ++ leftoversOf inp).Perm
      ((List.range inp.roster.length).filter
        (fun i => ((teams23Of inp).flatMap Prod.fst).contains i) ++ leftoversOf inp) :=
    h1.symm.append_right _
  have h3 : leftoversOf inp
      = (List.range inp.roster.length).filter
          (fun i => !(((teams23Of inp).flatMap Prod.fst).contains i)) := rfl
  refine h2.trans ?_
  rw [h3]
  exact List.filter_append_perm _ _

/-! ## Redistribution lemmas -/

lemma appendAt_length (ts : List (List Nat × String)) (k idx : Nat) :
    (appendAt ts k idx).length = ts.length := by
  induction ts generalizing k with
  | nil => rfl
  | cons t ts ih =>
    cases k with
    | zero => rfl
    | succ k => simp [appendAt, ih k]

lemma appendAt_map_snd (ts : List (List Nat × String)) (k idx : Nat) :
    (appendAt ts k idx).map Prod.snd = ts.map Prod.snd := by
  induction ts generalizing k with
  | nil => rfl
  | cons t ts ih =>
    cases k with
    | zero => rfl
    | succ k => simp [appendAt, ih k]

lemma appendAt_flat_perm {ts : List (List Nat × String)} {k : Nat} (idx : Nat)
    (hk : k < ts.length) :
    ((appendAt ts k idx).flatMap Prod.fst).Perm (idx :: ts.flatMap Prod.fst) := by
  induction ts generalizing k with
  | nil => simp at hk
  | cons t rest ih =>
    cases k with
    | zero =>
      simp only [appendAt, List.flatMap_cons]
      have h1 : (t.1 ++ [idx]).Perm (idx :: t.1) := List.perm_append_singleton idx t.1
      exact h1.append_right _
    | succ k =>
      simp only [appendAt, List.flatMap_cons]
      have hk' : k < rest.length := by simpa using hk
      refine ((ih hk').append_left t.1).trans ?_
      exact (List.perm_middle).symm.symm.trans List.perm_middle.symm |>.symm.symm.trans
        List.perm_middle

lemma appendAt_getD_snd (ts : List (List Nat × String)) (k idx j : Nat) :
    ((appendAt ts k idx).getD j ([], "")).2 = (ts.getD j ([], "")).2 := by
  induction ts generalizing k j with
  | nil => rfl
  | cons t rest ih =>
    cases k with
    | zero =>
      cases j with
      | zero => rfl
      | succ j => rfl
    | succ k =>
      cases j with
      | zero => rfl
      | succ j => simpa [appendAt] using ih k j

lemma appendAt_getD_fst (ts : List (List Nat × String)) (k idx j : Nat) :
    ((appendAt ts k idx).getD j ([], "")).1
      = (ts.getD j ([], "")).1 ++ (if j = k ∧ k < ts.length then [idx] else []) := by
  induction ts generalizing k j with
  | nil => simp [appendAt]
  | cons t rest ih =>
    cases k with
    | zero =>
      cases j with
      | zero => simp [appendAt]
      | succ j => simp [appendAt]
    | succ k =>
      cases j with
      | zero => simp [appendAt]
      | succ j =>
        simp only [appendAt, List.getD_cons_succ, ih k j, List.length_cons]
        congr 1
        by_cases h1 : j = k ∧ k < rest.length
        · rw [if_pos h1, if_pos (by omega)]
        · rw [if_neg h1, if_neg (by omega)]

lemma redistLoop_length (lo : List Nat) :
    ∀ (ts : List (List Nat × String)) (c : Nat),
      (redistLoop ts c lo).length = ts.length := by
  induction lo with
  | nil => intro ts c; rfl
  | cons idx rest ih =>
    intro ts c
    rw [redistLoop, ih, appendAt_length]

lemma redistLoop_map_snd (lo : List Nat) :
    ∀ (ts : List (List Nat × String)) (c : Nat),
      (redistLoop ts c lo).map Prod.snd = ts.map Prod.snd := by
  induction lo with
  | nil => intro ts c; rfl
  | cons idx rest ih =>
    intro ts c
    rw [redistLoop, ih, appendAt_map_snd]

lemma redistLoop_flat_perm (lo : List Nat) :
    ∀ (ts : List (List Nat × String)) (c : Nat), ts ≠ [] →
      ((redistLoop ts c lo).flatMap Prod.fst).Perm (ts.flatMap Prod.fst ++ lo) := by
  induction lo with
  | nil =>
    intro ts c _
    show (ts.flatMap Prod.fst).Perm (ts.flatMap Prod.fst ++ [])
    simp
  | cons idx rest ih =>
    intro ts c hne
    rw [redistLoop]
    have hlen : 0 < ts.length := List.length_pos.mpr hne
    have hk : c % ts.length < ts.length := Nat.mod_lt c hlen
    have hne' : appendAt ts (c % ts.length) idx ≠ [] := by
      intro h
      have := appendAt_length ts (c % ts.length) idx
      rw [h] at this
      simp at this
      omega
    refine (ih _ (c + 1) hne').trans ?_
    have h1 := appendAt_flat_perm idx hk
    refine (h1.append_right rest).trans ?_
    exact List.perm_middle.symm

lemma redistLoop_getD_snd (lo : List Nat) :
    ∀ (ts : List (List Nat × String)) (c j : Nat),
      ((redistLoop ts c lo).getD j ([], "")).2 = (ts.getD j ([], "")).2 := by
  induction lo with
  | nil => intro ts c j; rfl
  | cons idx rest ih =>
    intro ts c j
    rw [redistLoop, ih, appendAt_getD_snd]

lemma redistLoop_getD_fst (lo : List Nat) :
    ∀ (ts : List (List Nat × String)) (c j : Nat),
      ∃ e, ((redistLoop ts c lo).getD j ([], "")).1 = (ts.getD j ([], "")).1 ++ e := by
  induction lo with
  | nil =>
    intro ts c j
    refine ⟨[], ?_⟩
    show (ts.getD j ([], "")).1 = (ts.getD j ([], "")).1 ++ []
    simp
  | cons idx rest ih =>
    intro ts c j
    obtain ⟨e, he⟩ := ih (appendAt ts (c % ts.length) idx) (c + 1) j
    rw [redistLoop, he, appendAt_getD_fst]
    exact ⟨_, (List.append_assoc _ _ _)⟩

/-! ## Team-size counting -/

lemma appendAt_getD_len (ts : List (List Nat × String)) (k idx j : Nat) :
    ((appendAt ts k idx).getD j ([], "")).1.length
      = ((ts.getD j ([], "")).1).length
        + (if j = k ∧ k < ts.length then 1 else 0) := by
  rw [appendAt_getD_fst]
  by_cases h : j = k ∧ k < ts.length
  · rw [if_pos h, if_pos h]
    simp
  · rw [if_neg h, if_neg h]
    simp

lemma redistLoop_getD_len (lo : List Nat) :
    ∀ (ts : List (List Nat × String)) (c j : Nat), 0 < ts.length →
      ((redistLoop ts c lo).getD j ([], "")).1.length
        = ((ts.getD j ([], "")).1).length
          + (List.range lo.length).countP (fun k => (c + k) % ts.length == j) := by
  induction lo with
  | nil =>
    intro ts c j _
    show ((ts.getD j ([], "")).1).length = _
    simp
  | cons idx rest ih =>
    intro ts c j hlen
    rw [redistLoop]
    have hlen' : 0 < (appendAt ts (c % ts.length) idx).length := by
      rw [appendAt_length]; exact hlen
    rw [ih _ (c + 1) j hlen', appendAt_getD_len]
    have hmod : c % ts.length < ts.length := Nat.mod_lt c hlen
    have hcount : (List.range (idx :: rest).length).countP
        (fun k => (c + k) % ts.length == j)
        = (if c % ts.length = j then 1 else 0)
          + (List.range rest.length).countP (fun k => (c + 1 + k) % ts.length == j) := by
      rw [List.length_cons, List.range_succ_eq_map, List.countP_cons, List.countP_map]
      have h1 : (List.range rest.length).countP
          ((fun k => (c + k) % ts.length == j) ∘ Nat.succ)
          = (List.range rest.length).countP (fun k => (c + 1 + k) % ts.length == j) := by
        congr 1
        funext k
        simp only [Function.comp_apply]
        congr 2
        omega
      rw [h1]
      by_cases h2 : c % ts.length = j
      · simp only [Nat.add_zero, h2, beq_self_eq_true, if_pos]
        omega
      · have : ((c + 0) % ts.length == j) = false := by
          simp only [Nat.add_zero, beq_eq_false_iff_ne, ne_eq]
          exact h2
        rw [this]
        simp [h2]
    rw [hcount, appendAt_length]
    have hj : (if j = c % ts.length ∧ c % ts.length < ts.length then 1 else 0)
        = (if c % ts.length = j then 1 else 0) := by
      by_cases h2 : c % ts.length = j
      · rw [if_pos h2, if_pos ⟨h2.symm, hmod⟩]
      · rw [if_neg h2, if_neg (fun hc => h2 hc.1.symm)]
    omega

lemma countP_mod_range (T : Nat) (hT : 0 < T) :
    ∀ (L j : Nat), j < T →
      (List.range L).countP (fun k => k % T == j)
        = L / T + (if j < L % T then 1 else 0) := by
  intro L
  induction L with
  | zero => intro j hj; simp
  | succ L ih =>
    intro j hj
    rw [List.range_succ, List.countP_append]
    have hC : (List.range L).countP (fun k => k % T == j)
        = L / T + (if j < L % T then 1 else 0) := ih j hj
    have hLT : L % T < T := Nat.mod_lt L hT
    have hsing : ([L].countP (fun k => k % T == j))
        = (if L % T = j then 1 else 0) := by
      by_cases h : L % T = j
      · simp [List.countP_cons, h]
      · simp [List.countP_cons, h]
    rw [hC, hsing]
    by_cases hcase : L % T = T - 1
    · have hdm := Nat.div_add_mod L T
      have hdvd : T ∣ L + 1 := by
        refine ⟨L / T + 1, ?_⟩
        rw [Nat.mul_add, Nat.mul_one]
        omega
      have hdiv : (L + 1) / T = L / T + 1 := by
        rw [Nat.succ_div, if_pos hdvd]
      have hmod0 : (L + 1) % T = 0 := Nat.mod_eq_zero_of_dvd hdvd
      rw [hdiv, hmod0, hcase]
      rw [if_neg (Nat.not_lt_zero j)]
      by_cases hjc : T - 1 = j
      · rw [if_pos hjc, if_neg (by omega)]
      · rw [if_neg hjc, if_pos (by omega)]
    · have hT2 : 2 ≤ T := by omega
      have h1m : 1 % T = 1 := Nat.mod_eq_of_lt (by omega)
      have hlt2 : L % T + 1 < T := by omega
      have hmod1 : (L + 1) % T = L % T + 1 := by
        rw [Nat.add_mod, h1m, Nat.mod_eq_of_lt hlt2]
      have hdvd : ¬ T ∣ L + 1 := by
        intro hd
        have h0 : (L + 1) % T = 0 := Nat.mod_eq_zero_of_dvd hd
        omega
      have hdiv : (L + 1) / T = L / T := by
        rw [Nat.succ_div, if_neg hdvd]
        omega
      rw [hdiv, hmod1]
      by_cases hjc : L % T = j
      · rw [if_pos hjc, if_neg (by omega), if_pos (by omega)]
      · rw [if_neg hjc]
        by_cases hjl : j < L % T
        · rw [if_pos hjl, if_pos (by omega)]
        · rw [if_neg hjl, if_neg (by omega)]

/-! ## Team-label injectivity -/

lemma digitChar_val {m : Nat} (h : m < 10) : (Nat.digitChar m).toNat - 48 = m := by
  interval_cases m <;> decide

lemma decodeFrom_append (acc : Nat) (l1 l2 : List Char) :
    decodeFrom acc (l1 ++ l2) = decodeFrom (decodeFrom acc l1) l2 := by
  simp [decodeFrom, List.foldl_append]

lemma decode_natDigitsF : ∀ (fuel n : Nat), n < fuel →
    decodeFrom 0 (natDigitsF fuel n) = n := by
  intro fuel
  induction fuel with
  | zero => intro n hn; omega
  | succ fuel ih =>
    intro n hn
    rw [natDigitsF]
    by_cases h : n < 10
    · rw [if_pos h]
      simp [decodeFrom, digitChar_val h]
    · rw [if_neg h]
      have h10 : (10 : Nat) ≤ n := by omega
      have hdiv : n / 10 < fuel := by
        have := Nat.div_lt_self (by omega : 0 < n) (by omega : 1 < 10)
        omega
      rw [decodeFrom_append, ih (n / 10) hdiv]
      have hmod : n % 10 < 10 := Nat.mod_lt n (by omega)
      simp only [decodeFrom, List.foldl_cons, List.foldl_nil, digitChar_val hmod]
      have := Nat.div_add_mod n 10
      omega

lemma decode_natDigits (n : Nat) : decodeFrom 0 (natDigits n) = n :=
  decode_natDigitsF (n + 1) n (Nat.lt_succ_self n)

lemma decode_pad02 (n : Nat) : decodeFrom 0 (pad02 n) = n := by
  rw [pad02]
  by_cases h : n < 10
  · rw [if_pos h]
    have h0 : decodeFrom 0 ('0' :: natDigits n) = decodeFrom 0 (natDigits n) := by
      simp [decodeFrom]
    rw [h0, decode_natDigits]
  · rw [if_neg h, decode_natDigits]

lemma teamLabel_inj {m n : Nat} (h : teamLabel m = teamLabel n) : m = n := by
  have hdata : ('T' :: pad02 m) = ('T' :: pad02 n) := congrArg String.data h
  have hpad : pad02 m = pad02 n := List.cons.injEq .. |>.mp hdata |>.2
  calc m = decodeFrom 0 (pad02 m) := (decode_pad02 m).symm
    _ = decodeFrom 0 (pad02 n) := by rw [hpad]
    _ = n := decode_pad02 n

/-! ## Engine-result characterisation -/

lemma engineTeams_ok_elim {inp : Inputs} {ft : List (List Nat × String)}
    (hok : engineTeams inp = .ok ft) :
    (inp.team_size = 0 ∧ ft = [] ∧ inp.roster.length = 0) ∨
    (0 < inp.team_size ∧ (leftoversOf inp = [] ∨ teams23Of inp ≠ []) ∧
      ft = redistLoop (teams23Of inp) 0 (leftoversOf inp)) := by
  by_cases hts : inp.team_size = 0
  · left
    rw [engineTeams, if_pos hts] at hok
    by_cases h0 : inp.target_cross_teams = none
    · rw [if_pos h0] at hok; exact absurd hok (by simp)
    · rw [if_neg h0] at hok
      by_cases h1 : 0 < targetOf inp
      · rw [if_pos h1] at hok; exact absurd hok (by simp)
      · rw [if_neg h1] at hok
        by_cases h2 : inp.roster.length = 0
        · rw [if_pos h2] at hok
          refine ⟨hts, ?_, h2⟩
          injection hok with h
          exact h.symm
        · rw [if_neg h2] at hok; exact absurd hok (by simp)
  · right
    rw [engineTeams, if_neg hts] at hok
    by_cases h1 : leftoversOf inp = [] ∨ teams23Of inp ≠ []
    · rw [if_pos h1] at hok
      refine ⟨by omega, h1, ?_⟩
      injection hok with h
      exact h.symm
    · rw [if_neg h1] at hok; exact absurd hok (by simp)

lemma assign_teams_of_engine {inp : Inputs} {ft : List (List Nat × String)}
    (hok : engineTeams inp = .ok ft) :
    assign_teams inp = .ok (stampGo 1 ft (rows0Of inp)) := by
  rw [assign_teams, hok]

/-- All teams formed in Phases 2–3 have exactly `team_size` members. -/
lemma teams23_sizes (inp : Inputs) (hts : 0 < inp.team_size)
    (hrng : (rngOf inp).Nodup) :
    ∀ t ∈ teams23Of inp, t.1.length = inp.team_size := by
  intro t ht
  rcases List.mem_append.mp ht with ht | ht
  · obtain ⟨_, hprop, _, _⟩ := teams2_spec inp hrng
    exact fullWindows_length_eq hts (hprop t ht).2.2
  · obtain ⟨_, g, hw⟩ := mem_teams3 inp ht
    exact fullWindows_length_eq hts hw

/-- The conditions of the Phase-2/3 team list: `"cross"` for the first
`(teams2Of inp).length` teams, `"same"` afterwards. -/
lemma teams23_conds (inp : Inputs) (hrng : (rngOf inp).Nodup) :
    ∀ j, j < (teams23Of inp).length →
      ((teams23Of inp).getD j ([], "")).2
        = (if j < (teams2Of inp).length then "cross" else "same") := by
  intro j hj
  by_cases h : j < (teams2Of inp).length
  · rw [if_pos h]
    obtain ⟨_, hprop, _, _⟩ := teams2_spec inp hrng
    have hget : (teams23Of inp).getD j ([], "") = (teams2Of inp).getD j ([], "") := by
      rw [teams23Of, List.getD_eq_getElem?_getD, List.getElem?_append_left h,
        ← List.getD_eq_getElem?_getD]
    rw [hget]
    have hmem : (teams2Of inp).getD j ([], "") ∈ teams2Of inp := by
      rw [List.getD_eq_getElem _ _ h]
      exact List.getElem_mem h
    exact (hprop _ hmem).1
  · rw [if_neg h]
    have hj2 : j - (teams2Of inp).length < (teams3Of inp).length := by
      rw [teams23Of, List.length_append] at hj
      omega
    have hget : (teams23Of inp).getD j ([], "")
        = (teams3Of inp).getD (j - (teams2Of inp).length) ([], "") := by
      rw [teams23Of, List.getD_eq_getElem?_getD,
        List.getElem?_append_right (by omega), ← List.getD_eq_getElem?_getD]
    rw [hget]
    have hmem : (teams3Of inp).getD (j - (teams2Of inp).length) ([], "")
        ∈ teams3Of inp := by
      rw [List.getD_eq_getElem _ _ hj2]
      exact List.getElem_mem hj2
    exact (mem_teams3 inp hmem).1

/-! ## Stamping lemmas -/

lemma stampRowsOne_length (idxs : List Nat) (label cond : String) :
    ∀ (rows : List Row) (s : Nat),
      (stampRowsOne idxs label cond s rows).length = rows.length := by
  intro rows
  induction rows with
  | nil => intro s; rfl
  | cons r rs ih => intro s; simp [stampRowsOne, ih (s + 1)]

lemma stampRowsOne_getD (idxs : List Nat) (label cond : String) :
    ∀ (rows : List Row) (s i : Nat) (d : Row), i < rows.length →
      (stampRowsOne idxs label cond s rows).getD i d
        = (if idxs.contains (s + i) then
            { rows.getD i d with team_id := label, condition := cond }
          else rows.getD i d) := by
  intro rows
  induction rows with
  | nil => intro s i d h; simp at h
  | cons r rs ih =>
    intro s i d h
    cases i with
    | zero => simp [stampRowsOne]
    | succ i =>
      rw [stampRowsOne, List.getD_cons_succ, List.getD_cons_succ,
        ih (s + 1) i d (by simpa using h)]
      have : s + 1 + i = s + (i + 1) := by omega
      rw [this]

lemma stampGo_length : ∀ (tms : List (List Nat × String)) (c : Nat) (rows : List Row),
    (stampGo c tms rows).length = rows.length := by
  intro tms
  induction tms with
  | nil => intro c rows; rfl
  | cons t rest ih =>
    intro c rows
    rw [show stampGo c (t :: rest) rows
        = stampGo (c + 1) rest (stampRowsOne t.1 (teamLabel c) t.2 0 rows) from rfl,
      ih (c + 1), stampRowsOne_length]

lemma stampGo_getD_not_mem :
    ∀ (tms : List (List Nat × String)) (c : Nat) (rows : List Row) (i : Nat) (d : Row),
      i < rows.length → i ∉ tms.flatMap Prod.fst →
      (stampGo c tms rows).getD i d = rows.getD i d := by
  intro tms
  induction tms with
  | nil => intro c rows i d _ _; rfl
  | cons t rest ih =>
    intro c rows i d hlen hmem
    rw [List.flatMap_cons, List.mem_append] at hmem
    push_neg at hmem
    rw [show stampGo c (t :: rest) rows
        = stampGo (c + 1) rest (stampRowsOne t.1 (teamLabel c) t.2 0 rows) from rfl,
      ih (c + 1) _ i d (by rw [stampRowsOne_length]; exact hlen) hmem.2,
      stampRowsOne_getD _ _ _ _ _ _ _ hlen]
    rw [if_neg (fun hc => hmem.1 (natContains_iff.mp (by simpa using hc)))]

lemma stampGo_getD_mem :
    ∀ (tms : List (List Nat × String)) (c : Nat) (rows : List Row) (i : Nat) (d : Row)
      (j : Nat), i < rows.length → j < tms.length →
      i ∈ (tms.getD j ([], "")).1 →
      (∀ j', j < j' → j' < tms.length → i ∉ (tms.getD j' ([], "")).1) →
      ((stampGo c tms rows).getD i d).team_id = teamLabel (c + j) ∧
      ((stampGo c tms rows).getD i d).condition = (tms.getD j ([], "")).2 := by
  intro tms
  induction tms with
  | nil => intro c rows i d j _ hj; simp at hj
  | cons t rest ih =>
    intro c rows i d j hlen hj hmem hlater
    cases j with
    | zero =>
      have hrest : i ∉ rest.flatMap Prod.fst := by
        intro hc
        obtain ⟨j', hj', hij'⟩ := mem_flatMap_fst_iff.mp hc
        exact hlater (j' + 1) (by omega) (by simpa using hj')
          (by simpa using hij')
      rw [show stampGo c (t :: rest) rows
          = stampGo (c + 1) rest (stampRowsOne t.1 (teamLabel c) t.2 0 rows) from rfl,
        stampGo_getD_not_mem rest (c + 1) _ i d
          (by rw [stampRowsOne_length]; exact hlen) hrest,
        stampRowsOne_getD _ _ _ _ _ _ _ hlen]
      have hcmem : i ∈ t.1 := by simpa using hmem
      rw [if_pos (by simpa using natContains_iff.mpr hcmem)]
      exact ⟨by rw [Nat.add_zero], by simp⟩
    | succ j =>
      have hj' : j < rest.length := by simpa using hj
      have hmem' : i ∈ (rest.getD j ([], "")).1 := by simpa using hmem
      have hlater' : ∀ j', j < j' → j' < rest.length →
          i ∉ (rest.getD j' ([], "")).1 := by
        intro j' h1 h2
        exact fun hc => hlater (j' + 1) (by omega) (by simpa using h2)
          (by simpa using hc)
      rw [show stampGo c (t :: rest) rows
          = stampGo (c + 1) rest (stampRowsOne t.1 (teamLabel c) t.2 0 rows) from rfl]
      obtain ⟨h1, h2⟩ := ih (c + 1) (stampRowsOne t.1 (teamLabel c) t.2 0 rows) i d j
        (by rw [stampRowsOne_length]; exact hlen) hj' hmem' hlater'
      refine ⟨?_, ?_⟩
      · rw [h1]
        congr 1
        omega
      · rw [h2]
        simp

/-! ## Claim theorems -/

lemma fullWindows_eq_nil {ts : Nat} {l : List Nat} (h : l.length < ts) :
    fullWindows ts l = [] := by
  simp [fullWindows, Nat.div_eq_of_lt h]

lemma leftovers_of_no_teams {inp : Inputs} (h : teams23Of inp = []) :
    leftoversOf inp = List.range inp.roster.length := by
  rw [leftoversOf, h]
  simp

/-- C1 — the code, not the claim: whenever `team_size > 0`, the roster is
non-empty and Phases 2–3 formed zero teams, `assign_teams` reaches the
round-robin loop with an empty team list and raises `ZeroDivisionError`
(`t_idx % len(teams)` with `len(teams) = 0`).  There is no `NoTeamsFormed`
condition anywhere in the code, so the claimed graceful failure does not
happen: the engine crashes. -/
theorem claim_c1_no_teams_crashes (inp : Inputs) (hts : 0 < inp.team_size)
    (hne : inp.roster ≠ []) (hzero : teams23Of inp = []) :
    assign_teams inp = .zeroDivisionError := by
  have hlo : leftoversOf inp = List.range inp.roster.length :=
    leftovers_of_no_teams hzero
  have hlnil : leftoversOf inp ≠ [] := by
    rw [hlo]
    have h1 : 0 < inp.roster.length := List.length_pos.mpr hne
    simp only [ne_eq, List.range_eq_nil]
    omega
  have heng : engineTeams inp = .zeroDivisionError := by
    rw [engineTeams, if_neg (by omega : ¬ inp.team_size = 0),
      if_neg (by simp [hlnil, hzero])]
  rw [assign_teams, heng]

/-- Witness for C1: a roster of 2 students with `team_size = 4` (the spec's
undersized-roster scenario) makes `assign_teams` raise `ZeroDivisionError`. -/
theorem claim_c1_no_teams_crashes_witness :
    assign_teams ⟨idShuffle, [some "B Tech AI", some "B Tech Computer"], 4, none, 42⟩
      = .zeroDivisionError :=
  claim_c1_no_teams_crashes
    ⟨idShuffle, [some "B Tech AI", some "B Tech Computer"], 4, none, 42⟩
    (by decide) (by decide) (by decide)

/-- C2 counterexample: on the empty roster (with `team_size = 4`) the code
returns a result — an empty assignment — instead of surfacing any
`InvalidConfiguration` error; no such validation exists in the code. -/
theorem claim_c2_counterexample :
    assign_teams ⟨idShuffle, [], 4, none, 42⟩ = .ok [] := by decide

/-- C2 amended: `assign_teams` performs no configuration validation.  For an
empty roster with positive `team_size` it returns normally with an empty
assignment, and for `team_size = 0` with the default target it raises
`ZeroDivisionError` (computing `n // 0`) — in neither case is an
`InvalidConfiguration` error surfaced. -/
theorem claim_c2_no_validation (sh : Nat → Nat → List Nat) (ts : Nat)
    (tct : Option Int) (seed : Nat) (roster : List (Option String))
    (hsh : ∀ s m, (sh s m).Perm (List.range m)) (hts : 0 < ts) :
    assign_teams ⟨sh, [], ts, tct, seed⟩ = .ok [] ∧
    assign_teams ⟨sh, roster, 0, none, seed⟩ = .zeroDivisionError := by
  constructor
  · have h0 : sh seed 0 = [] := by
      have := hsh seed 0
      simpa using this.eq_nil
    have h1 : sh (seed + 1) 0 = [] := by
      have := hsh (seed + 1) 0
      simpa using this.eq_nil
    have hrows : rows0Of ⟨sh, [], ts, tct, seed⟩ = [] := by
      simp [rows0Of, shuffledOf, h0]
    have hrng : rngOf ⟨sh, [], ts, tct, seed⟩ = [] := by
      simp [rngOf, h1]
    have hw : fullWindows ts (rngOf ⟨sh, [], ts, tct, seed⟩) = [] := by
      rw [hrng]
      simp [fullWindows]
    have hp2 : phase2Of ⟨sh, [], ts, tct, seed⟩ = ([], []) := by
      rw [phase2Of, hw]
      rfl
    have hrem : remainingOf ⟨sh, [], ts, tct, seed⟩ = [] := by
      simp [remainingOf]
    have h23 : teams23Of ⟨sh, [], ts, tct, seed⟩ = [] := by
      rw [teams23Of, teams2Of, teams3Of, hp2, hrem]
      rfl
    have hlo : leftoversOf ⟨sh, [], ts, tct, seed⟩ = [] := by
      simp [leftoversOf]
    have heng : engineTeams ⟨sh, [], ts, tct, seed⟩ = .ok [] := by
      rw [engineTeams, if_neg (by omega : ¬ ts = 0), if_pos (Or.inl hlo), h23, hlo]
      rfl
    rw [assign_teams, heng, hrows]
    rfl
  · rw [assign_teams, engineTeams]
    rfl

/-- Witness for C2's amended claim at a concrete shuffle and parameters. -/
theorem claim_c2_no_validation_witness :
    assign_teams ⟨idShuffle, [], 4, none, 42⟩ = .ok [] ∧
    assign_teams ⟨idShuffle, [some "B Tech AI"], 0, none, 42⟩ = .zeroDivisionError :=
  claim_c2_no_validation idShuffle 4 none 42 [some "B Tech AI"]
    (fun _ _ => List.Perm.refl _) (by decide)

/-- C4 — determinism: `assign_teams` is a pure function of the shuffle
primitive, the classified roster (in input order), the team size, the target
cross-team count and the seed; calling it twice on equal inputs yields equal
outputs. -/
theorem claim_c4_determinism (sh : Nat → Nat → List Nat)
    (r₁ r₂ : List (Option String)) (ts₁ ts₂ : Nat) (tc₁ tc₂ : Option Int)
    (s₁ s₂ : Nat) (hr : r₁ = r₂) (hts : ts₁ = ts₂) (htc : tc₁ = tc₂)
    (hs : s₁ = s₂) :
    assign_teams ⟨sh, r₁, ts₁, tc₁, s₁⟩ = assign_teams ⟨sh, r₂, ts₂, tc₂, s₂⟩ := by
  subst hr
  subst hts
  subst htc
  subst hs
  rfl

/-- Witness for C4 at concrete inputs. -/
theorem claim_c4_determinism_witness :
    assign_teams ⟨idShuffle, [some "B Tech AI"], 3, none, 5⟩
      = assign_teams ⟨idShuffle, [some "B Tech AI"], 3, none, 5⟩ :=
  claim_c4_determinism idShuffle [some "B Tech AI"] [some "B Tech AI"] 3 3
    none none 5 5 rfl rfl rfl rfl

lemma getD_range_map {α : Type} (l : List α) (d : α) :
    (List.range l.length).map (fun i => l.getD i d) = l := by
  apply List.ext_getElem
  · simp
  · intro i h1 h2
    simp only [List.getElem_map, List.getElem_range]
    exact List.getD_eq_getElem l d h2

lemma shuffled_perm_roster (inp : Inputs)
    (hsh : ∀ s m, (inp.shuffle s m).Perm (List.range m)) :
    (shuffledOf inp).Perm inp.roster := by
  have h1 : (inp.shuffle inp.seed inp.roster.length).Perm
      (List.range inp.roster.length) := hsh inp.seed inp.roster.length
  have h2 := h1.map (fun k => inp.roster.getD k none)
  rw [getD_range_map inp.roster none] at h2
  exact h2

lemma shuffled_length (inp : Inputs)
    (hsh : ∀ s m, (inp.shuffle s m).Perm (List.range m)) :
    (shuffledOf inp).length = inp.roster.length :=
  (shuffled_perm_roster inp hsh).length_eq

/-- C3 — coverage: whenever the engine returns a team list, the members of
the returned teams are exactly the row positions `0 .. n-1`, each exactly
once (no duplicates, no omissions); mapped back through the shuffled roster,
they are exactly the input roster's students, each exactly once. -/
theorem claim_c3_coverage (inp : Inputs)
    (hsh : ∀ s m, (inp.shuffle s m).Perm (List.range m))
    (hne : inp.roster ≠ []) (ft : List (List Nat × String))
    (hok : engineTeams inp = .ok ft) :
    (ft.flatMap Prod.fst).Perm (List.range inp.roster.length) ∧
    ((ft.flatMap Prod.fst).map (fun i => (shuffledOf inp).getD i none)).Perm
      inp.roster := by
  have hperm : (rngOf inp).Perm (List.range inp.roster.length) :=
    hsh (inp.seed + 1) inp.roster.length
  have hcov := cover_perm inp hperm
  have hmain : (ft.flatMap Prod.fst).Perm (List.range inp.roster.length) := by
    rcases engineTeams_ok_elim hok with ⟨_, _, hzero⟩ | ⟨hts, hcond, hft⟩
    · exact absurd (List.length_eq_zero.mp hzero) hne
    · by_cases h23 : teams23Of inp = []
      · have hlo := leftovers_of_no_teams h23
        rcases hcond with hcond | hcond
        · rw [hcond] at hlo
          have : inp.roster.length = 0 := by
            have := congrArg List.length hlo
            simpa using this.symm
          exact absurd (List.length_eq_zero.mp this) hne
        · exact absurd h23 hcond
      · have h1 := redistLoop_flat_perm (leftoversOf inp) (teams23Of inp) 0 h23
        rw [← hft] at h1
        exact h1.trans hcov
  refine ⟨hmain, ?_⟩
  have h2 := hmain.map (fun i => (shuffledOf inp).getD i none)
  have h3 : (List.range inp.roster.length).map
      (fun i => (shuffledOf inp).getD i none) = shuffledOf inp := by
    have := getD_range_map (shuffledOf inp) none
    rw [shuffled_length inp hsh] at this
    exact this
  rw [h3] at h2
  exact h2.trans (shuffled_perm_roster inp hsh)

/-- Witness for C3 on a 4-student roster forming one cross team. -/
theorem claim_c3_coverage_witness :
    (([([0, 1, 2, 3], "cross")] : List (List Nat × String)).flatMap
      Prod.fst).Perm (List.range 4) ∧
    ((([([0, 1, 2, 3], "cross")] : List (List Nat × String)).flatMap
      Prod.fst).map (fun i => (shuffledOf ⟨idShuffle,
        [some "B Tech AI", some "B Tech Computer", none, some "xyz"],
        4, none, 42⟩).getD i none)).Perm
      [some "B Tech AI", some "B Tech Computer", none, some "xyz"] :=
  claim_c3_coverage
    ⟨idShuffle, [some "B Tech AI", some "B Tech Computer", none, some "xyz"],
      4, none, 42⟩
    (fun _ _ => List.Perm.refl _) (by decide) [([0, 1, 2, 3], "cross")]
    (by decide)

/-- A concrete input used by several witnesses: four students spanning four
programme groups, `team_size = 4`, default target, identity shuffle. -/
def inpWit : Inputs :=
  ⟨idShuffle, [some "B Tech AI", some "B Tech Computer", none, some "xyz"],
    4, none, 42⟩

/-- C5 — cross-team validity: in a returned team list, each team's
`condition` is the one fixed at formation time, its formation-time member
list is a prefix of its returned member list (Phase 4 only appends), and any
team whose condition is `"cross"` had, at formation time in Phase 2, members
from more than one distinct programme group. -/
theorem claim_c5_cross_validity (inp : Inputs)
    (hsh : ∀ s m, (inp.shuffle s m).Perm (List.range m))
    (ft : List (List Nat × String)) (hok : engineTeams inp = .ok ft)
    (j : Nat) (hj : j < ft.length) :
    (ft.getD j ([], "")).2 = ((teams23Of inp).getD j ([], "")).2 ∧
    (∃ rest, (ft.getD j ([], "")).1
      = ((teams23Of inp).getD j ([], "")).1 ++ rest) ∧
    ((ft.getD j ([], "")).2 = "cross" →
      1 < ((((teams23Of inp).getD j ([], "")).1.map (pgAt inp)).dedup).length) := by
  have hrng : (rngOf inp).Nodup :=
    (hsh (inp.seed + 1) inp.roster.length).nodup_iff.mpr (List.nodup_range _)
  rcases engineTeams_ok_elim hok with ⟨_, hft, _⟩ | ⟨hts, hcond, hft⟩
  · rw [hft] at hj
    simp at hj
  · subst hft
    refine ⟨redistLoop_getD_snd _ _ _ _, redistLoop_getD_fst _ _ _ _, ?_⟩
    intro hcross
    rw [redistLoop_getD_snd] at hcross
    have hlen : j < (teams23Of inp).length := by
      rwa [redistLoop_length] at hj
    have hmem : (teams23Of inp).getD j ([], "") ∈ teams23Of inp := by
      rw [List.getD_eq_getElem _ _ hlen]
      exact List.getElem_mem hlen
    rcases List.mem_append.mp hmem with hmem | hmem
    · obtain ⟨_, hprop, _, _⟩ := teams2_spec inp hrng
      have hc := (hprop _ hmem).2.1
      rw [can_form_cross] at hc
      exact of_decide_eq_true hc
    · have := (mem_teams3 inp hmem).1
      rw [this] at hcross
      exact absurd hcross (by decide)

/-- Witness for C5 at the concrete input `inpWit`, whose single team is a
cross team. -/
theorem claim_c5_cross_validity_witness :
    (([([0, 1, 2, 3], "cross")] : List (List Nat × String)).getD 0 ([], "")).2
      = ((teams23Of inpWit).getD 0 ([], "")).2 ∧
    (∃ rest, (([([0, 1, 2, 3], "cross")] : List (List Nat × String)).getD 0
        ([], "")).1 = ((teams23Of inpWit).getD 0 ([], "")).1 ++ rest) ∧
    ((([([0, 1, 2, 3], "cross")] : List (List Nat × String)).getD 0
        ([], "")).2 = "cross" →
      1 < ((((teams23Of inpWit).getD 0 ([], "")).1.map
        (pgAt inpWit)).dedup).length) :=
  claim_c5_cross_validity inpWit (fun _ _ => List.Perm.refl _)
    [([0, 1, 2, 3], "cross")] (by decide) 0 (by decide)

/-- Sizes of the teams returned by a run with at least one formed team:
`team_size` plus the round-robin share of the leftovers. -/
lemma final_team_size (inp : Inputs) (hts : 0 < inp.team_size)
    (hrng : (rngOf inp).Nodup) (h23 : teams23Of inp ≠ [])
    (j : Nat) (hj : j < (teams23Of inp).length) :
    ((redistLoop (teams23Of inp) 0 (leftoversOf inp)).getD j ([], "")).1.length
      = inp.team_size
        + ((leftoversOf inp).length / (teams23Of inp).length
          + if j < (leftoversOf inp).length % (teams23Of inp).length
            then 1 else 0) := by
  have hT : 0 < (teams23Of inp).length := List.length_pos.mpr h23
  rw [redistLoop_getD_len (leftoversOf inp) (teams23Of inp) 0 j hT]
  have hbase : ((teams23Of inp).getD j ([], "")).1.length = inp.team_size := by
    have hmem : (teams23Of inp).getD j ([], "") ∈ teams23Of inp := by
      rw [List.getD_eq_getElem _ _ hj]
      exact List.getElem_mem hj
    exact teams23_sizes inp hts hrng _ hmem
  have hcnt : (List.range (leftoversOf inp).length).countP
      (fun k => (0 + k) % (teams23Of inp).length == j)
      = (List.range (leftoversOf inp).length).countP
        (fun k => k % (teams23Of inp).length == j) := by
    congr 1
    funext k
    rw [Nat.zero_add]
  rw [hbase, hcnt, countP_mod_range _ hT _ j hj]

/-- C6 — size bounds: in a returned team list every team has at least
`team_size` members and at most `team_size + leftover_count`; moreover the
round-robin keeps any two teams' sizes within one of each other (in
particular when leftovers are at least as many as the formed teams). -/
theorem claim_c6_size_bounds (inp : Inputs)
    (hsh : ∀ s m, (inp.shuffle s m).Perm (List.range m))
    (ft : List (List Nat × String)) (hok : engineTeams inp = .ok ft) :
    (∀ t ∈ ft, inp.team_size ≤ t.1.length ∧
      t.1.length ≤ inp.team_size + (leftoversOf inp).length) ∧
    ((teams23Of inp).length ≤ (leftoversOf inp).length →
      ∀ t1 ∈ ft, ∀ t2 ∈ ft, t1.1.length ≤ t2.1.length + 1) := by
  have hrng : (rngOf inp).Nodup :=
    (hsh (inp.seed + 1) inp.roster.length).nodup_iff.mpr (List.nodup_range _)
  rcases engineTeams_ok_elim hok with ⟨_, hft, _⟩ | ⟨hts, hcond, hft⟩
  · subst hft
    exact ⟨by simp, fun _ => by simp⟩
  · by_cases h23 : teams23Of inp = []
    · have hlo : leftoversOf inp = [] := by
        rcases hcond with h | h
        · exact h
        · exact absurd h23 h
      rw [h23, hlo] at hft
      subst hft
      exact ⟨by simp [redistLoop], fun _ => by simp [redistLoop]⟩
    · have hT : 0 < (teams23Of inp).length := List.length_pos.mpr h23
      have hlen : ft.length = (teams23Of inp).length := by
        rw [hft, redistLoop_length]
      have hmemsize : ∀ t ∈ ft, ∃ j, j < (teams23Of inp).length ∧
          t.1.length = inp.team_size
            + ((leftoversOf inp).length / (teams23Of inp).length
              + if j < (leftoversOf inp).length % (teams23Of inp).length
                then 1 else 0) := by
        intro t ht
        obtain ⟨j, hj, hget⟩ := List.mem_iff_getElem.mp ht
        have hj' : j < (teams23Of inp).length := by rwa [hlen] at hj
        refine ⟨j, hj', ?_⟩
        have : ft.getD j ([], "") = t := by
          rw [List.getD_eq_getElem _ _ hj, hget]
        rw [← this, hft, final_team_size inp hts hrng h23 j hj']
      obtain ⟨D, M, hdm, hMlt, hDle⟩ : ∃ D M,
          (teams23Of inp).length * D + M = (leftoversOf inp).length ∧
          M < (teams23Of inp).length ∧ D ≤ (teams23Of inp).length * D ∧
          D = (leftoversOf inp).length / (teams23Of inp).length ∧
          M = (leftoversOf inp).length % (teams23Of inp).length := by
        refine ⟨(leftoversOf inp).length / (teams23Of inp).length,
          (leftoversOf inp).length % (teams23Of inp).length,
          Nat.div_add_mod _ _, Nat.mod_lt _ hT,
          Nat.le_mul_of_pos_left _ hT, rfl, rfl⟩
      obtain ⟨hDle, hDdef, hMdef⟩ := hDle
      have hmemsize' : ∀ t ∈ ft, ∃ j, j < (teams23Of inp).length ∧
          t.1.length = inp.team_size + (D + if j < M then 1 else 0) := by
        intro t ht
        obtain ⟨j, hj, hsize⟩ := hmemsize t ht
        rw [← hDdef, ← hMdef] at hsize
        exact ⟨j, hj, hsize⟩
      constructor
      · intro t ht
        obtain ⟨j, hj, hsize⟩ := hmemsize' t ht
        by_cases hcase : j < M
        · rw [if_pos hcase] at hsize
          exact ⟨by omega, by omega⟩
        · rw [if_neg hcase] at hsize
          exact ⟨by omega, by omega⟩
      · intro _ t1 h1 t2 h2
        obtain ⟨j1, hj1, hs1⟩ := hmemsize' t1 h1
        obtain ⟨j2, hj2, hs2⟩ := hmemsize' t2 h2
        by_cases hc1 : j1 < M
          <;> by_cases hc2 : j2 < M
          <;> simp only [if_pos, if_neg, hc1, hc2, if_true, if_false] at hs1 hs2
          <;> omega

/-- Witness for C6 on a run with leftovers: five same-group students with
`team_size = 2` form two teams and one leftover. -/
theorem claim_c6_size_bounds_witness :
    (∀ t ∈ ([([0, 1, 4], "same"), ([2, 3], "same")] : List (List Nat × String)),
      (⟨idShuffle, [some "B Tech AI", some "B Tech AI", some "B Tech AI",
        some "B Tech AI", some "B Tech AI"], 2, none, 7⟩ : Inputs).team_size
          ≤ t.1.length ∧
      t.1.length ≤ (⟨idShuffle, [some "B Tech AI", some "B Tech AI",
        some "B Tech AI", some "B Tech AI", some "B Tech AI"], 2, none,
        7⟩ : Inputs).team_size
        + (leftoversOf ⟨idShuffle, [some "B Tech AI", some "B Tech AI",
            some "B Tech AI", some "B Tech AI", some "B Tech AI"], 2, none,
            7⟩).length) ∧
    ((teams23Of ⟨idShuffle, [some "B Tech AI", some "B Tech AI",
        some "B Tech AI", some "B Tech AI", some "B Tech AI"], 2, none,
        7⟩).length
      ≤ (leftoversOf ⟨idShuffle, [some "B Tech AI", some "B Tech AI",
          some "B Tech AI", some "B Tech AI", some "B Tech AI"], 2, none,
          7⟩).length →
      ∀ t1 ∈ ([([0, 1, 4], "same"), ([2, 3], "same")] :
          List (List Nat × String)),
        ∀ t2 ∈ ([([0, 1, 4], "same"), ([2, 3], "same")] :
            List (List Nat × String)),
          t1.1.length ≤ t2.1.length + 1) :=
  claim_c6_size_bounds
    ⟨idShuffle, [some "B Tech AI", some "B Tech AI", some "B Tech AI",
      some "B Tech AI", some "B Tech AI"], 2, none, 7⟩
    (fun _ _ => List.Perm.refl _)
    [([0, 1, 4], "same"), ([2, 3], "same")] (by decide)

/-- C7 counterexample: a fully homogeneous roster of 2 with `team_size = 4`
makes `assign_teams` raise `ZeroDivisionError` instead of returning normally
with zero cross teams, refuting the claim as stated for rosters smaller than
`team_size`. -/
theorem claim_c7_counterexample :
    assign_teams ⟨idShuffle, [some "B Tech AI", some "B Tech AI"], 4, none, 42⟩
      = .zeroDivisionError := by decide

lemma length_dedup_le_one {l : List String} {g : String}
    (hl : ∀ x ∈ l, x = g) : l.dedup.length ≤ 1 := by
  by_contra h
  push_neg at h
  have hnd := l.nodup_dedup
  rcases hD : l.dedup with _ | ⟨x, _ | ⟨y, t⟩⟩ <;> rw [hD] at h
  · simp at h
  · simp at h
  · have hx : x = g := hl x (List.mem_dedup.mp (hD ▸ List.mem_cons_self x _))
    have hy : y = g := hl y (List.mem_dedup.mp
      (hD ▸ List.mem_cons_of_mem x (List.mem_cons_self y t)))
    rw [hD] at hnd
    rcases List.nodup_cons.mp hnd with ⟨hxt, _⟩
    exact hxt (by rw [hx, ← hy]; exact List.mem_cons_self y t)

lemma dedup_all_eq {l : List String} {g : String} (hne : l ≠ [])
    (hl : ∀ x ∈ l, x = g) : l.dedup = [g] := by
  have hle := length_dedup_le_one hl
  have hgmem : g ∈ l.dedup := by
    rcases List.exists_mem_of_ne_nil l hne with ⟨x, hx⟩
    rw [← hl x hx]
    exact List.mem_dedup.mpr hx
  rcases hD : l.dedup with _ | ⟨x, t⟩
  · rw [hD] at hgmem
    simp at hgmem
  · rw [hD] at hle hgmem
    have ht : t = [] := by
      cases t with
      | nil => rfl
      | cons y t => simp at hle
    subst ht
    have hxg : g = x := by simpa using hgmem
    rw [hxg]

lemma phase2Go_no_cross (catOf : Nat → String) (target : Int) :
    ∀ (ws : List (List Nat)) (formed : Nat) (used : List Nat)
      (teams : List (List Nat × String)),
      (∀ w ∈ ws, can_form_cross catOf w = false) →
      phase2Go catOf target ws formed used teams = (teams, used) := by
  intro ws
  induction ws with
  | nil => intro _ _ _ _; rfl
  | cons w ws ih =>
    intro formed used teams hc
    rw [phase2Go]
    by_cases h1 : (formed : Int) < target
    · rw [if_pos h1]
      by_cases h2 : w.any (fun idx => used.contains idx)
      · rw [if_pos h2]
        exact ih formed used teams (fun w' h => hc w' (List.mem_cons_of_mem w h))
      · rw [if_neg h2, hc w (List.mem_cons_self w ws), if_neg (by simp)]
        exact ih formed used teams (fun w' h => hc w' (List.mem_cons_of_mem w h))
    · rw [if_neg h1]

/-- Every row position of a homogeneous roster classifies to the common
group. -/
lemma pgAt_of_homogeneous (inp : Inputs)
    (hsh : ∀ s m, (inp.shuffle s m).Perm (List.range m))
    {g : String} (hg : ∀ x ∈ inp.roster, programme_group x = g)
    {i : Nat} (hi : i < inp.roster.length) : pgAt inp i = g := by
  have hshl : (shuffledOf inp).length = inp.roster.length :=
    shuffled_length inp hsh
  have hi' : i < (catsOf inp).length := by
    rw [catsOf, List.length_map, hshl]
    exact hi
  have hi'' : i < (shuffledOf inp).length := by rw [hshl]; exact hi
  rw [pgAt, List.getD_eq_getElem?_getD, catsOf, List.getElem?_map,
    List.getElem?_eq_getElem hi'']
  show programme_group ((shuffledOf inp)[i]) = g
  exact hg _ ((shuffled_perm_roster inp hsh).subset (List.getElem_mem hi''))

/-- C7 amended: on a fully homogeneous roster with `0 < team_size ≤ roster
size` (so that Phase 3 forms at least one team and the missing-`NoTeamsFormed`
crash of C1 is not triggered), `assign_teams` returns normally and the
achieved cross-team count is `0`; the unreachable cross-team target is
silent, not an error. -/
theorem claim_c7_homogeneous_best_effort (inp : Inputs)
    (hsh : ∀ s m, (inp.shuffle s m).Perm (List.range m))
    (g : String) (hg : ∀ x ∈ inp.roster, programme_group x = g)
    (hts : 0 < inp.team_size) (hn : inp.team_size ≤ inp.roster.length) :
    ∃ ft, engineTeams inp = .ok ft ∧
      ft.countP (fun t => t.2 == "cross") = 0 ∧
      assign_teams inp = .ok (stampGo 1 ft (rows0Of inp)) := by
  have hperm : (rngOf inp).Perm (List.range inp.roster.length) :=
    hsh (inp.seed + 1) inp.roster.length
  have hcat : ∀ i, i < inp.roster.length → pgAt inp i = g :=
    fun i hi => pgAt_of_homogeneous inp hsh hg hi
  -- Phase 2 forms no cross team
  have hnocross : ∀ w ∈ fullWindows inp.team_size (rngOf inp),
      can_form_cross (pgAt inp) w = false := by
    intro w hw
    have hall : ∀ x ∈ w.map (pgAt inp), x = g := by
      intro x hx
      obtain ⟨i, hi, rfl⟩ := List.mem_map.mp hx
      have : i ∈ rngOf inp := (fullWindows_sublist hw).subset hi
      exact hcat i (by simpa using hperm.subset this)
    have hle := length_dedup_le_one hall
    simp only [can_form_cross, decide_eq_false_iff_not]
    omega
  have hp2 : phase2Of inp = ([], []) := by
    rw [phase2Of, phase2Go_no_cross _ _ _ _ _ _ hnocross]
  have h2nil : teams2Of inp = [] := by rw [teams2Of, hp2]
  have hused : usedOf inp = [] := by rw [usedOf, hp2]
  -- Phase 3's remaining pool is everyone
  have hrem : remainingOf inp = List.range inp.roster.length := by
    rw [remainingOf, hused]
    simp
  -- Phase 3 forms at least one team
  have hnpos : 0 < inp.roster.length := by omega
  have hrnn : List.range inp.roster.length ≠ [] := by
    simp only [ne_eq, List.range_eq_nil]
    omega
  have hallrem : ∀ x ∈ (List.range inp.roster.length).map (pgAt inp), x = g := by
    intro x hx
    obtain ⟨i, hi, rfl⟩ := List.mem_map.mp hx
    exact hcat i (by simpa using hi)
  have hded : ((List.range inp.roster.length).map (pgAt inp)).dedup = [g] :=
    dedup_all_eq (by simpa using hrnn) hallrem
  have hfilt : (List.range inp.roster.length).filter
      (fun i => pgAt inp i == g) = List.range inp.roster.length := by
    refine List.filter_eq_self.mpr ?_
    intro i hi
    exact beq_iff_eq.mpr (hcat i (by simpa using hi))
  have h3 : teams3Of inp
      = (fullWindows inp.team_size (List.range inp.roster.length)).map
          (fun w => (w, "same")) := by
    rw [teams3Of, phase3Teams, hrem, hded]
    show (insertSorted g []).flatMap _ = _
    rw [show insertSorted g [] = [g] from rfl]
    simp [hfilt]
  have h3ne : teams3Of inp ≠ [] := by
    rw [h3]
    simp only [ne_eq, List.map_eq_nil_iff]
    exact fullWindows_ne_nil hts (by simpa using hn)
  have h23 : teams23Of inp = teams3Of inp := by
    rw [teams23Of, h2nil, List.nil_append]
  have heng : engineTeams inp
      = .ok (redistLoop (teams23Of inp) 0 (leftoversOf inp)) := by
    rw [engineTeams, if_neg (by omega : ¬ inp.team_size = 0),
      if_pos (Or.inr (by rw [h23]; exact h3ne))]
  refine ⟨_, heng, ?_, assign_teams_of_engine heng⟩
  -- cross-team count is zero
  have hsnd : (redistLoop (teams23Of inp) 0 (leftoversOf inp)).map Prod.snd
      = (teams23Of inp).map Prod.snd := redistLoop_map_snd _ _ _
  have hcnt : (redistLoop (teams23Of inp) 0 (leftoversOf inp)).countP
      (fun t => t.2 == "cross")
      = ((redistLoop (teams23Of inp) 0 (leftoversOf inp)).map
          Prod.snd).countP (fun s => s == "cross") := by
    rw [List.countP_map]
    rfl
  rw [hcnt, hsnd, h23]
  refine List.countP_eq_zero.mpr ?_
  intro s hs
  obtain ⟨t, ht, rfl⟩ := List.mem_map.mp hs
  rw [(mem_teams3 inp ht).1]
  decide

/-- Witness for C7's amended claim: four same-group students, `team_size = 4`. -/
theorem claim_c7_homogeneous_best_effort_witness :
    ∃ ft, engineTeams ⟨idShuffle, [some "B Tech AI", some "B Tech AI",
        some "B Tech AI", some "B Tech AI"], 4, none, 0⟩ = .ok ft ∧
      ft.countP (fun t => t.2 == "cross") = 0 ∧
      assign_teams ⟨idShuffle, [some "B Tech AI", some "B Tech AI",
        some "B Tech AI", some "B Tech AI"], 4, none, 0⟩
        = .ok (stampGo 1 ft (rows0Of ⟨idShuffle, [some "B Tech AI",
            some "B Tech AI", some "B Tech AI", some "B Tech AI"], 4,
            none, 0⟩)) :=
  claim_c7_homogeneous_best_effort
    ⟨idShuffle, [some "B Tech AI", some "B Tech AI", some "B Tech AI",
      some "B Tech AI"], 4, none, 0⟩
    (fun _ _ => List.Perm.refl _) "AIAGroup" (by decide) (by decide) (by decide)

/-- Default row used with `List.getD` on the stamped rows. -/
def defaultRow : Row := ⟨none, "", "", ""⟩

lemma flat_nodup_disjoint :
    ∀ (ts : List (List Nat × String)), (ts.flatMap Prod.fst).Nodup →
      ∀ j j', j < ts.length → j' < ts.length → j ≠ j' →
        ∀ i, i ∈ (ts.getD j ([], "")).1 → i ∉ (ts.getD j' ([], "")).1 := by
  intro ts
  induction ts with
  | nil => intro _ j _ hj; simp at hj
  | cons t rest ih =>
    intro h j j' hj hj' hne i hi hi'
    rw [List.flatMap_cons] at h
    obtain ⟨h1, h2, hdisj⟩ := List.nodup_append.mp h
    cases j with
    | zero =>
      cases j' with
      | zero => exact hne rfl
      | succ j' =>
        have : i ∈ rest.flatMap Prod.fst :=
          mem_flatMap_fst_iff.mpr ⟨j', by simpa using hj', by simpa using hi'⟩
        exact hdisj (by simpa using hi) this
    | succ j =>
      cases j' with
      | zero =>
        have : i ∈ rest.flatMap Prod.fst :=
          mem_flatMap_fst_iff.mpr ⟨j, by simpa using hj, by simpa using hi⟩
        exact hdisj (by simpa using hi') this
      | succ j' =>
        exact ih h2 j j' (by simpa using hj) (by simpa using hj')
          (by omega) i (by simpa using hi) (by simpa using hi')

/-- C8 — labeling: on a successful run the stamped dataframe is returned;
labels `teamLabel 1, teamLabel 2, …` (`"T01"`, `"T02"`, …) are pairwise
distinct (no reuse); the returned team list carries all `"cross"` teams
before all `"same"` teams; and every member of the `j`-th team (0-based) is
stamped with `teamLabel (j+1)` and that team's condition. -/
theorem claim_c8_labeling (inp : Inputs)
    (hsh : ∀ s m, (inp.shuffle s m).Perm (List.range m))
    (ft : List (List Nat × String)) (hok : engineTeams inp = .ok ft) :
    assign_teams inp = .ok (stampGo 1 ft (rows0Of inp)) ∧
    (∀ k1 k2 : Nat, teamLabel k1 = teamLabel k2 → k1 = k2) ∧
    (∃ c, ∀ j, j < ft.length →
      (ft.getD j ([], "")).2 = (if j < c then "cross" else "same")) ∧
    (∀ j, j < ft.length → ∀ i ∈ (ft.getD j ([], "")).1,
      ((stampGo 1 ft (rows0Of inp)).getD i defaultRow).team_id
        = teamLabel (j + 1) ∧
      ((stampGo 1 ft (rows0Of inp)).getD i defaultRow).condition
        = (ft.getD j ([], "")).2) := by
  have hrng : (rngOf inp).Nodup :=
    (hsh (inp.seed + 1) inp.roster.length).nodup_iff.mpr (List.nodup_range _)
  refine ⟨assign_teams_of_engine hok, fun k1 k2 h => teamLabel_inj h, ?_, ?_⟩
  · -- cross teams before same teams
    rcases engineTeams_ok_elim hok with ⟨_, hft, _⟩ | ⟨hts, hcond, hft⟩
    · exact ⟨0, fun j hj => by rw [hft] at hj; simp at hj⟩
    · refine ⟨(teams2Of inp).length, fun j hj => ?_⟩
      have hj' : j < (teams23Of inp).length := by
        rw [hft, redistLoop_length] at hj
        exact hj
      rw [hft, redistLoop_getD_snd]
      exact teams23_conds inp hrng j hj'
  · -- stamping
    intro j hj i hi
    rcases engineTeams_ok_elim hok with ⟨_, hft, _⟩ | ⟨hts, hcond, hft⟩
    · rw [hft] at hj
      simp at hj
    · by_cases h23 : teams23Of inp = []
      · have hlo : leftoversOf inp = [] := by
          rcases hcond with h | h
          · exact h
          · exact absurd h23 h
        rw [h23, hlo] at hft
        rw [show redistLoop [] 0 [] = [] from rfl] at hft
        rw [hft] at hj
        simp at hj
      · have hfperm : (ft.flatMap Prod.fst).Perm
            (List.range inp.roster.length) := by
          rw [hft]
          exact (redistLoop_flat_perm _ _ _ h23).trans
            (cover_perm inp (hsh (inp.seed + 1) inp.roster.length))
        have hfnd : (ft.flatMap Prod.fst).Nodup :=
          hfperm.nodup_iff.mpr (List.nodup_range _)
        have hilt : i < inp.roster.length := by
          have : i ∈ ft.flatMap Prod.fst :=
            mem_flatMap_fst_iff.mpr ⟨j, hj, hi⟩
          simpa using hfperm.subset this
        have hrows : i < (rows0Of inp).length := by
          rw [rows0Of, List.length_map, shuffled_length inp hsh]
          exact hilt
        have hlater : ∀ j', j < j' → j' < ft.length →
            i ∉ (ft.getD j' ([], "")).1 :=
          fun j' h1 h2 => flat_nodup_disjoint ft hfnd j j' hj h2 (by omega) i hi
        obtain ⟨ht1, ht2⟩ := stampGo_getD_mem ft 1 (rows0Of inp) i defaultRow j
          hrows hj hi hlater
        refine ⟨?_, ht2⟩
        rw [ht1]
        congr 1
        omega

/-- Witness for C8 at `inpWit`: one cross team labeled `T01`. -/
theorem claim_c8_labeling_witness :
    assign_teams inpWit = .ok (stampGo 1 [([0, 1, 2, 3], "cross")]
      (rows0Of inpWit)) ∧
    (∀ k1 k2 : Nat, teamLabel k1 = teamLabel k2 → k1 = k2) ∧
    (∃ c, ∀ j, j < ([([0, 1, 2, 3], "cross")] :
        List (List Nat × String)).length →
      (([([0, 1, 2, 3], "cross")] : List (List Nat × String)).getD j
        ([], "")).2 = (if j < c then "cross" else "same")) ∧
    (∀ j, j < ([([0, 1, 2, 3], "cross")] :
        List (List Nat × String)).length →
      ∀ i ∈ (([([0, 1, 2, 3], "cross")] :
          List (List Nat × String)).getD j ([], "")).1,
        ((stampGo 1 [([0, 1, 2, 3], "cross")]
            (rows0Of inpWit)).getD i defaultRow).team_id = teamLabel (j + 1) ∧
        ((stampGo 1 [([0, 1, 2, 3], "cross")]
            (rows0Of inpWit)).getD i defaultRow).condition
          = (([([0, 1, 2, 3], "cross")] :
              List (List Nat × String)).getD j ([], "")).2) :=
  claim_c8_labeling inpWit (fun _ _ => List.Perm.refl _)
    [([0, 1, 2, 3], "cross")] (by decide)
